import Mathlib

/-!
# Verification of the `cppsimplier` toy interpreter

A shallow embedding of `src/cppinterpreter.cpp`: the lexer (`Lexer::tokenize`,
`Lexer::next_token`), the recursive-descent parser (`Parser::parse`,
`Parser::parse_out_statement`, `Parser::parse_in_statement`) and the executor
(`OutStatement::execute`, `InStatement::execute`, `Interpreter::execute`).

Modelling conventions:
- `std::string` positions: the C++ lexer walks a string with a monotonically
  increasing index `pos` and only ever inspects `input[pos..]`; we therefore
  model the scanner state as the remaining list of characters.
- `isspace`/`isalpha`/`isalnum`/`isdigit` are the C functions in the "C"
  locale, restricted to ASCII.
- `std::unordered_map<std::string, std::string>` is modelled as an
  association list with update-in-place assignment (`operator[]=`).
- `std::stoi` is modelled explicitly (whitespace skip, optional sign, longest
  digit run, `invalid_argument` when no digits, `out_of_range` when the value
  does not fit a 32-bit `int`, as on all mainstream platforms).
- Thrown C++ exceptions that escape a function are modelled with `Except`:
  `.error` means the surrounding run aborts with that uncaught exception.
-/

/-- `TokenType` from the source (`enum class TokenType`). -/
inductive TokenType
  | OUT
  | IN
  | GREATER_THAN
  | LESS_THAN
  | STRING_LITERAL
  | VAR_NAME
  | STOP
  | END_STATEMENT
  | INT_KEYWORD
  | UNKNOWN
deriving DecidableEq

/-- `struct Token { TokenType type; std::string value; }`. -/
structure Token where
  type : TokenType
  value : String
deriving DecidableEq

/-- C `isspace` in the "C" locale. -/
def isspaceC (c : Char) : Bool :=
  c = ' ' || c = '\t' || c = '\n' || c = '\x0b' || c = '\x0c' || c = '\r'

/-- C `isalpha` in the "C" locale (ASCII letters). -/
def isalphaC (c : Char) : Bool :=
  ('A' ≤ c && c ≤ 'Z') || ('a' ≤ c && c ≤ 'z')

/-- C `isdigit`. -/
def isdigitC (c : Char) : Bool :=
  '0' ≤ c && c ≤ '9'

/-- C `isalnum`. -/
def isalnumC (c : Char) : Bool :=
  isalphaC c || isdigitC c

/-- `Lexer::skip_whitespace`: advance past leading whitespace. -/
def skip_whitespace : List Char → List Char
  | [] => []
  | c :: cs => if isspaceC c then skip_whitespace cs else c :: cs

/-- `Lexer::next_token`: produce one token and the remaining input.
The C++ checks, in order: the literal prefixes `"out"`, `">>"`, `"in"`,
`"<<"`, `"stop"`, `"int"` (via `input.substr(pos, k) == kw`, which compares
equal only when `k` characters remain), then a `"`-delimited string literal
(reading to the closing quote or end of input), then an alphanumeric
identifier, then `;`, and otherwise yields `UNKNOWN` after advancing one
character. `'\x22'` is the double-quote character. -/
def next_token (input : List Char) : Token × List Char :=
  let rest := skip_whitespace input
  match rest with
  | [] => (⟨TokenType.END_STATEMENT, ""⟩, [])
  | c :: cs =>
    if "out".toList.isPrefixOf rest then (⟨TokenType.OUT, "out"⟩, rest.drop 3)
    else if ">>".toList.isPrefixOf rest then (⟨TokenType.GREATER_THAN, ">>"⟩, rest.drop 2)
    else if "in".toList.isPrefixOf rest then (⟨TokenType.IN, "in"⟩, rest.drop 2)
    else if "<<".toList.isPrefixOf rest then (⟨TokenType.LESS_THAN, "<<"⟩, rest.drop 2)
    else if "stop".toList.isPrefixOf rest then (⟨TokenType.STOP, "stop"⟩, rest.drop 4)
    else if "int".toList.isPrefixOf rest then (⟨TokenType.INT_KEYWORD, "int"⟩, rest.drop 3)
    else if c = '\x22' then
      let value := cs.takeWhile (fun d => d ≠ '\x22')
      (⟨TokenType.STRING_LITERAL, String.mk value⟩, (cs.dropWhile (fun d => d ≠ '\x22')).drop 1)
    else if isalphaC c then
      (⟨TokenType.VAR_NAME, String.mk (rest.takeWhile isalnumC)⟩, rest.dropWhile isalnumC)
    else if c = ';' then (⟨TokenType.END_STATEMENT, ";"⟩, cs)
    else (⟨TokenType.UNKNOWN, ""⟩, cs)

theorem length_skip_whitespace_le (l : List Char) : (skip_whitespace l).length ≤ l.length := by
  induction l with
  | nil => simp [skip_whitespace]
  | cons c cs ih =>
    simp only [skip_whitespace]
    split
    · exact Nat.le_trans ih (Nat.le_succ _)
    · simp

theorem length_dropWhile_char_le (p : Char → Bool) (l : List Char) :
    (l.dropWhile p).length ≤ l.length := by
  induction l with
  | nil => simp
  | cons c cs ih =>
    simp only [List.dropWhile]
    split
    · exact Nat.le_trans ih (Nat.le_succ _)
    · simp

/-- Each `next_token` call on a nonempty remainder strictly consumes input:
this is why `Lexer::tokenize`'s `while (pos < input.length())` loop
terminates. -/
theorem next_token_shrinks (input : List Char) (h : input ≠ []) :
    (next_token input).2.length < input.length := by
  have hsw := length_skip_whitespace_le input
  have hpos : 0 < input.length := List.length_pos.mpr h
  unfold next_token
  cases hr : skip_whitespace input with
  | nil => simpa using hpos
  | cons c cs =>
    rw [hr] at hsw
    have h1 := length_dropWhile_char_le (fun d => d ≠ '\x22') cs
    have h2 := length_dropWhile_char_le isalnumC (c :: cs)
    dsimp only
    repeat' split
    all_goals try (dsimp only; simp only [List.length_drop, List.length_cons] at *; omega)
    -- remaining: the identifier branch, where the head character is alphabetic
    rename_i hc
    dsimp only
    rw [List.dropWhile_cons_of_pos (by simp [isalnumC, hc])]
    have h3 := length_dropWhile_char_le isalnumC cs
    simp only [List.length_cons] at hsw
    omega

/-- `Lexer::tokenize`: the scan loop. While input remains, take the next
token; an `UNKNOWN` token aborts with the `"Unknown token encountered"`
exception, every other token (including the `END_STATEMENT` produced when
trailing whitespace moves `pos` to the end) is appended. -/
def tokenize (input : List Char) : Except String (List Token) :=
  match hi : input with
  | [] => .ok []
  | _ :: _ =>
    match hn : next_token input with
    | (token, rest) =>
      if token.type = TokenType.UNKNOWN then .error "Unknown token encountered"
      else
        match tokenize rest with
        | .ok ts => .ok (token :: ts)
        | .error e => .error e
termination_by input.length
decreasing_by
  have h := next_token_shrinks input (by simp [hi])
  rw [hn] at h
  rw [hi] at h
  simpa using h

theorem tokenize_nil : tokenize [] = .ok [] := by rw [tokenize.eq_def]

/-- Fuel-indexed twin of `tokenize`, used only to evaluate the (well-founded
recursive) `tokenize` on concrete inputs by kernel reduction; `tokenizeF_eq`
proves it agrees with `tokenize` whenever the fuel covers the input length. -/
def tokenizeF : Nat → List Char → Except String (List Token)
  | _, [] => .ok []
  | 0, _ :: _ => .ok []
  | fuel + 1, c :: cs =>
    match next_token (c :: cs) with
    | (token, rest) =>
      if token.type = TokenType.UNKNOWN then .error "Unknown token encountered"
      else
        match tokenizeF fuel rest with
        | .ok ts => .ok (token :: ts)
        | .error e => .error e

theorem tokenizeF_eq (fuel : Nat) (input : List Char) (h : input.length ≤ fuel) :
    tokenizeF fuel input = tokenize input := by
  induction fuel generalizing input with
  | zero =>
    cases input with
    | nil => rw [tokenize.eq_def]; rfl
    | cons c cs => simp at h
  | succ fuel ih =>
    cases input with
    | nil => rw [tokenize.eq_def]; rfl
    | cons c cs =>
      rw [tokenize.eq_def]
      simp only [tokenizeF]
      cases hn : next_token (c :: cs) with
      | mk token rest =>
        have hlt : rest.length < (c :: cs).length := by
          have := next_token_shrinks (c :: cs) (by simp)
          rw [hn] at this
          exact this
        have hrest : rest.length ≤ fuel := by
          simp only [List.length_cons] at hlt h
          omega
        rw [ih rest hrest]

/-- Evaluation form of `tokenize`: with fuel equal to the input length, the
fueled twin computes the same result. -/
theorem tokenize_evalF (input : List Char) : tokenize input = tokenizeF input.length input :=
  (tokenizeF_eq input.length input (Nat.le_refl _)).symm

example : tokenize "integer".toList =
    .ok [⟨TokenType.IN, "in"⟩, ⟨TokenType.VAR_NAME, "teger"⟩] := by
  rw [tokenize_evalF]; rfl

example : tokenize "output".toList =
    .ok [⟨TokenType.OUT, "out"⟩, ⟨TokenType.VAR_NAME, "put"⟩] := by
  rw [tokenize_evalF]; rfl

/-! ## Parser -/

/-- The statement variants (`class OutStatement` / `class InStatement`
under the abstract `class Statement`), modelled as a closed sum. -/
inductive Statement
  | OutStatement (output_targets : List String)
  | InStatement (var_name : String)
deriving DecidableEq

/-- The collection loop inside `Parser::parse_out_statement`: while the
cursor is on `>>`, a string literal or an identifier, skip `>>` tokens and
append literal/identifier payloads to the target list, in order. Returns
the accumulated targets and the remaining tokens. -/
def parse_out_loop : List Token → List String × List Token
  | [] => ([], [])
  | t :: ts =>
    if t.type = TokenType.GREATER_THAN then parse_out_loop ts
    else if t.type = TokenType.STRING_LITERAL || t.type = TokenType.VAR_NAME then
      match parse_out_loop ts with
      | (targets, rest) => (t.value :: targets, rest)
    else ([], t :: ts)

/-- `Parser::parse_out_statement`, applied to the tokens after the `out`
keyword: collect targets, then skip one optional `stop` token. -/
def parse_out_statement (ts : List Token) : Statement × List Token :=
  match parse_out_loop ts with
  | (output_targets, rest) =>
    match rest with
    | t :: rest' =>
      if t.type = TokenType.STOP then (.OutStatement output_targets, rest')
      else (.OutStatement output_targets, t :: rest')
    | [] => (.OutStatement output_targets, [])

/-- `Parser::parse_in_statement`, applied to the tokens after the `in`
keyword: require `<<` then an identifier, else throw
`"Invalid 'in' statement"`. -/
def parse_in_statement : List Token → Except String (Statement × List Token)
  | t1 :: ts =>
    if t1.type = TokenType.LESS_THAN then
      match ts with
      | t2 :: ts' =>
        if t2.type = TokenType.VAR_NAME then .ok (.InStatement t2.value, ts')
        else .error "Invalid 'in' statement"
      | [] => .error "Invalid 'in' statement"
    else .error "Invalid 'in' statement"
  | [] => .error "Invalid 'in' statement"

theorem parse_out_loop_length_le (ts : List Token) :
    (parse_out_loop ts).2.length ≤ ts.length := by
  induction ts with
  | nil => simp [parse_out_loop]
  | cons t ts ih =>
    simp only [parse_out_loop]
    split
    · exact Nat.le_trans ih (Nat.le_succ _)
    · split
      · cases hp : parse_out_loop ts with
        | mk targets rest =>
          rw [hp] at ih
          simpa using Nat.le_trans ih (Nat.le_succ _)
      · simp

theorem parse_out_statement_length_le (ts : List Token) :
    (parse_out_statement ts).2.length ≤ ts.length := by
  have h := parse_out_loop_length_le ts
  unfold parse_out_statement
  cases hp : parse_out_loop ts with
  | mk targets rest =>
    rw [hp] at h
    cases rest with
    | nil => simpa using h
    | cons t rest' =>
      dsimp only
      split
      · dsimp only; simp only [List.length_cons] at h; omega
      · dsimp only; simpa using h

theorem parse_in_statement_length_le (ts : List Token) (s : Statement) (r : List Token)
    (h : parse_in_statement ts = .ok (s, r)) : r.length ≤ ts.length := by
  cases ts with
  | nil => simp [parse_in_statement] at h
  | cons t1 ts =>
    simp only [parse_in_statement] at h
    split at h
    · cases ts with
      | nil => simp at h
      | cons t2 ts' =>
        dsimp only at h
        split at h
        · cases h
          simp only [List.length_cons]
          omega
        · cases h
    · cases h

/-- `Parser::parse`: the top-level scan. On an `out` token parse an out
statement, on an `in` token parse an in statement (whose
`"Invalid 'in' statement"` exception propagates and aborts the parse),
and skip any other token. -/
def parse (tokens : List Token) : Except String (List Statement) :=
  match ht : tokens with
  | [] => .ok []
  | t :: ts =>
    if t.type = TokenType.OUT then
      match ho : parse_out_statement ts with
      | (s, rest) =>
        match parse rest with
        | .ok stmts => .ok (s :: stmts)
        | .error e => .error e
    else if t.type = TokenType.IN then
      match hi : parse_in_statement ts with
      | .ok (s, rest) =>
        (match parse rest with
         | .ok stmts => .ok (s :: stmts)
         | .error e => .error e)
      | .error e => .error e
    else parse ts
termination_by tokens.length
decreasing_by
  · have h := parse_out_statement_length_le ts
    rw [ho] at h
    dsimp only at h
    simp only [List.length_cons]
    omega
  · have h := parse_in_statement_length_le ts s rest hi
    simp only [List.length_cons]
    omega
  · simp only [List.length_cons]
    omega

theorem parse_nil : parse [] = .ok [] := by rw [parse.eq_def]

/-- Fuel-indexed twin of `parse`, used only to evaluate `parse` on concrete
token lists by kernel reduction (`parseF_eq`). -/
def parseF : Nat → List Token → Except String (List Statement)
  | _, [] => .ok []
  | 0, _ :: _ => .ok []
  | fuel + 1, t :: ts =>
    if t.type = TokenType.OUT then
      match parse_out_statement ts with
      | (s, rest) =>
        match parseF fuel rest with
        | .ok stmts => .ok (s :: stmts)
        | .error e => .error e
    else if t.type = TokenType.IN then
      match parse_in_statement ts with
      | .ok (s, rest) =>
        (match parseF fuel rest with
         | .ok stmts => .ok (s :: stmts)
         | .error e => .error e)
      | .error e => .error e
    else parseF fuel ts

theorem parseF_eq (fuel : Nat) (tokens : List Token) (h : tokens.length ≤ fuel) :
    parseF fuel tokens = parse tokens := by
  induction fuel generalizing tokens with
  | zero =>
    cases tokens with
    | nil => rw [parse.eq_def]; rfl
    | cons t ts => simp at h
  | succ fuel ih =>
    cases tokens with
    | nil => rw [parse.eq_def]; rfl
    | cons t ts =>
      rw [parse.eq_def]
      simp only [parseF]
      simp only [List.length_cons] at h
      split
      · cases ho : parse_out_statement ts with
        | mk s rest =>
          have hr := parse_out_statement_length_le ts
          rw [ho] at hr
          dsimp only at hr
          dsimp only
          rw [ih rest (by omega)]
      · split
        · cases hi : parse_in_statement ts with
          | ok p =>
            cases p with
            | mk s rest =>
              have hr := parse_in_statement_length_le ts s rest hi
              dsimp only
              rw [ih rest (by omega)]
          | error e => rfl
        · exact ih ts (by omega)

/-- Evaluation form of `parse`. -/
theorem parse_evalF (tokens : List Token) : parse tokens = parseF tokens.length tokens :=
  (parseF_eq tokens.length tokens (Nat.le_refl _)).symm

/-! ## Executor -/

/-- The failure modes of `std::stoi` relevant here: `std::invalid_argument`
(no conversion could be performed) and `std::out_of_range` (the converted
value does not fit an `int`). -/
inductive StoiError
  | invalidArgument
  | outOfRange
deriving DecidableEq

/-- `std::stoi(s)` with the default base 10: skip leading whitespace, accept
one optional sign, then the longest run of decimal digits. No digits at all
raises `invalid_argument`; a value outside the 32-bit `int` range
`[-2147483648, 2147483647]` raises `out_of_range`; otherwise the parsed
prefix's value is returned (trailing garbage such as in `"12abc"` is
ignored). -/
def stoi (s : String) : Except StoiError Int :=
  let cs := s.toList.dropWhile isspaceC
  let signed : Int × List Char :=
    match cs with
    | '-' :: r => (-1, r)
    | '+' :: r => (1, r)
    | _ => (1, cs)
  let digits := signed.2.takeWhile isdigitC
  if digits = [] then .error .invalidArgument
  else
    let magnitude : Nat := digits.foldl (fun acc d => acc * 10 + (d.toNat - '0'.toNat)) 0
    let value : Int := signed.1 * magnitude
    if value < -2147483648 || 2147483647 < value then .error .outOfRange
    else .ok value

/-- `std::unordered_map::find` on the modelled environment. -/
def mapFind : List (String × String) → String → Option String
  | [], _ => none
  | (k, v) :: m, key => if k = key then some v else mapFind m key

/-- `std::unordered_map::operator[] = v`: overwrite the existing binding or
insert a new one. -/
def mapAssign : List (String × String) → String → String → List (String × String)
  | [], key, v => [(key, v)]
  | (k, w) :: m, key, v => if k = key then (k, v) :: m else (k, w) :: mapAssign m key v

/-- The state of one program run: the variable environment together with the
pending standard-input lines and the stdout/stderr lines emitted so far. -/
structure RunState where
  env : List (String × String)
  stdin : List String
  stdout : List String
  stderr : List String
deriving DecidableEq

/-- `std::getline(std::cin, s)`: consume one pending line; at end of input
the target string is left empty and no line is consumed. -/
def getline : List String → String × List String
  | [] => ("", [])
  | l :: ls => (l, ls)

/-- `OutStatement::execute`'s output: one line per target, in order; a
target present in the environment prints its current value, any other
target prints literally. -/
def OutStatement.execute (output_targets : List String)
    (vars : List (String × String)) : List String :=
  output_targets.map (fun target =>
    match mapFind vars target with
    | some v => v
    | none => target)

/-- `InStatement::execute`: read one line, try `std::stoi`; on success store
the canonical decimal text (`std::to_string(value)`) under `var_name`; on
`std::invalid_argument` print the diagnostic to stderr and store `"0"`. A
`std::out_of_range` from `stoi` is not caught (the `catch` clause only
matches `std::invalid_argument`), so it escapes and aborts the run. -/
def InStatement.execute (var_name : String) (st : RunState) : Except String RunState :=
  match getline st.stdin with
  | (input_str, stdin') =>
    match stoi input_str with
    | .ok value =>
      .ok { st with env := mapAssign st.env var_name (toString value), stdin := stdin' }
    | .error .invalidArgument =>
      .ok { st with env := mapAssign st.env var_name "0", stdin := stdin',
                    stderr := st.stderr ++ ["Invalid input. Please enter an integer."] }
    | .error .outOfRange => .error "std::out_of_range"

/-- Virtual dispatch `Statement::execute` (named `executeStatement` because
the `Statement` namespace would shadow the `OutStatement`/`InStatement`
helper namespaces). -/
def executeStatement : Statement → RunState → Except String RunState
  | .OutStatement output_targets, st =>
    .ok { st with stdout := st.stdout ++ OutStatement.execute output_targets st.env }
  | .InStatement var_name, st => InStatement.execute var_name st

/-- The loop body of `Interpreter::execute`: run the statements in order;
an uncaught exception aborts the remainder of the run. -/
def execStmts : List Statement → RunState → Except String RunState
  | [], st => .ok st
  | s :: rest, st =>
    match executeStatement s st with
    | .ok st' => execStmts rest st'
    | .error e => .error e

/-- `Interpreter::execute`: run against a fresh environment. -/
def Interpreter.execute (statements : List Statement) (stdin : List String) :
    Except String RunState :=
  execStmts statements { env := [], stdin := stdin, stdout := [], stderr := [] }

example : Interpreter.execute [.InStatement "a", .OutStatement ["a"]] ["abc"] =
    .ok { env := [("a", "0")], stdin := [], stdout := ["0"],
          stderr := ["Invalid input. Please enter an integer."] } := by rfl

example : Interpreter.execute [.InStatement "a", .OutStatement ["a"]] ["42"] =
    .ok { env := [("a", "42")], stdin := [], stdout := ["42"], stderr := [] } := by rfl

example : Interpreter.execute [.InStatement "a"] ["9999999999"] =
    .error "std::out_of_range" := by rfl

/-! ## Lexeme instrumentation (for the re-lexing property)

`tokenizeLex` is a ghost-instrumented variant of the scan loop: alongside
each token it also records that token's original lexeme, i.e. the slice of
the source consumed for the token after the whitespace skip. It is not part
of the C++ (which discards this information); `tokenizeLexF_fst` proves it
projects onto `tokenize`. -/

def tokenizeLexF : Nat → List Char → Except String (List (Token × List Char))
  | _, [] => .ok []
  | 0, _ :: _ => .ok []
  | fuel + 1, c :: cs =>
    match next_token (c :: cs) with
    | (token, rest) =>
      if token.type = TokenType.UNKNOWN then .error "Unknown token encountered"
      else
        match tokenizeLexF fuel rest with
        | .ok ts =>
          .ok ((token,
                (skip_whitespace (c :: cs)).take
                  ((skip_whitespace (c :: cs)).length - rest.length)) :: ts)
        | .error e => .error e

/-- The instrumented scan with just enough fuel (one token consumes at least
one character, so `input.length` steps always suffice). -/
def tokenizeLex (input : List Char) : Except String (List (Token × List Char)) :=
  tokenizeLexF input.length input

/-! ## Supporting lemmas -/

theorem length_takeWhile_char_le (p : Char → Bool) (l : List Char) :
    (l.takeWhile p).length ≤ l.length := by
  induction l with
  | nil => simp
  | cons c cs ih =>
    simp only [List.takeWhile]
    split
    · simpa using ih
    · simp

theorem dropWhile_eq_drop_takeWhile (p : Char → Bool) (l : List Char) :
    l.dropWhile p = l.drop (l.takeWhile p).length := by
  induction l with
  | nil => rfl
  | cons c cs ih =>
    by_cases h : p c
    · rw [List.dropWhile_cons_of_pos h, List.takeWhile_cons_of_pos h]
      simpa using ih
    · rw [List.dropWhile_cons_of_neg h, List.takeWhile_cons_of_neg h]
      rfl

theorem skip_whitespace_no_ws (l : List Char) (h : ∀ c ∈ l, isspaceC c = false) :
    skip_whitespace l = l := by
  cases l with
  | nil => rfl
  | cons c cs =>
    simp only [skip_whitespace]
    rw [if_neg]
    simp [h c (List.mem_cons_self c cs)]

theorem takeWhile_eq_self_of (p : Char → Bool) (l : List Char) (h : ∀ c ∈ l, p c = true) :
    l.takeWhile p = l := by
  induction l with
  | nil => rfl
  | cons c cs ih =>
    rw [List.takeWhile_cons_of_pos (h c (List.mem_cons_self c cs))]
    rw [ih (fun c hc => h c (List.mem_cons_of_mem _ hc))]

theorem dropWhile_eq_nil_of (p : Char → Bool) (l : List Char) (h : ∀ c ∈ l, p c = true) :
    l.dropWhile p = [] := by
  induction l with
  | nil => rfl
  | cons c cs ih =>
    rw [List.dropWhile_cons_of_pos (h c (List.mem_cons_self c cs))]
    exact ih (fun c hc => h c (List.mem_cons_of_mem _ hc))

/-- On whitespace-free input, each `next_token` step consumes a positive
prefix of the input: the remainder is `input.drop k` for some `0 < k`. -/
theorem next_token_drop (input : List Char) (hne : input ≠ [])
    (hws : ∀ c ∈ input, isspaceC c = false) :
    ∃ k, 0 < k ∧ k ≤ input.length ∧ (next_token input).2 = input.drop k := by
  cases input with
  | nil => exact absurd rfl hne
  | cons c cs =>
    have hsk : skip_whitespace (c :: cs) = c :: cs := skip_whitespace_no_ws _ hws
    simp only [next_token, hsk]
    split
    · rename_i hpre
      exact ⟨3, by omega, by simpa using (List.isPrefixOf_iff_prefix.mp hpre).length_le, rfl⟩
    · split
      · rename_i hpre
        exact ⟨2, by omega, by simpa using (List.isPrefixOf_iff_prefix.mp hpre).length_le, rfl⟩
      · split
        · rename_i hpre
          exact ⟨2, by omega, by simpa using (List.isPrefixOf_iff_prefix.mp hpre).length_le, rfl⟩
        · split
          · rename_i hpre
            exact ⟨2, by omega, by simpa using (List.isPrefixOf_iff_prefix.mp hpre).length_le, rfl⟩
          · split
            · rename_i hpre
              exact ⟨4, by omega, by simpa using (List.isPrefixOf_iff_prefix.mp hpre).length_le, rfl⟩
            · split
              · rename_i hpre
                exact ⟨3, by omega, by simpa using (List.isPrefixOf_iff_prefix.mp hpre).length_le, rfl⟩
              · split
                · -- string-literal branch
                  have hd := dropWhile_eq_drop_takeWhile (fun d => d ≠ '\x22') cs
                  have htl := length_takeWhile_char_le (fun d => d ≠ '\x22') cs
                  rcases Nat.lt_or_ge (cs.takeWhile (fun d => d ≠ '\x22')).length cs.length
                    with hlt | hge
                  · refine ⟨(cs.takeWhile (fun d => d ≠ '\x22')).length + 2, by omega,
                      by simp only [List.length_cons]; omega, ?_⟩
                    dsimp only
                    rw [hd, List.drop_drop, List.drop_succ_cons]
                  · refine ⟨cs.length + 1, by omega, by simp, ?_⟩
                    dsimp only
                    have hnil : cs.drop (cs.takeWhile (fun d => d ≠ '\x22')).length = [] :=
                      List.drop_eq_nil_of_le (by omega)
                    rw [hd, hnil, List.drop_succ_cons,
                      List.drop_eq_nil_of_le (Nat.le_refl cs.length)]
                    rfl
                · split
                  · -- identifier branch
                    rename_i halpha
                    refine ⟨((c :: cs).takeWhile isalnumC).length, ?_, ?_, ?_⟩
                    · rw [List.takeWhile_cons_of_pos (by simp [isalnumC, halpha])]
                      simp
                    · exact length_takeWhile_char_le isalnumC (c :: cs)
                    · dsimp only
                      exact dropWhile_eq_drop_takeWhile isalnumC (c :: cs)
                  · split
                    · exact ⟨1, by omega, by simp, rfl⟩
                    · exact ⟨1, by omega, by simp, rfl⟩

/-- The instrumented scan projects onto the plain scan (fueled forms). -/
theorem tokenizeLexF_fst (fuel : Nat) :
    ∀ (input : List Char) (l : List (Token × List Char)),
    tokenizeLexF fuel input = .ok l → tokenizeF fuel input = .ok (l.map Prod.fst) := by
  induction fuel with
  | zero =>
    intro input l h
    cases input with
    | nil => simp only [tokenizeLexF] at h; cases h; rfl
    | cons c cs => simp only [tokenizeLexF] at h; cases h; rfl
  | succ fuel ih =>
    intro input l h
    cases input with
    | nil => simp only [tokenizeLexF] at h; cases h; rfl
    | cons c cs =>
      simp only [tokenizeLexF] at h
      simp only [tokenizeF]
      cases hn : next_token (c :: cs) with
      | mk token rest =>
        rw [hn] at h
        dsimp only at h ⊢
        by_cases ht : token.type = TokenType.UNKNOWN
        · rw [if_pos ht] at h; cases h
        · rw [if_neg ht] at h
          rw [if_neg ht]
          cases he : tokenizeLexF fuel rest with
          | error e => rw [he] at h; cases h
          | ok l' =>
            rw [he] at h
            dsimp only at h
            cases h
            rw [ih rest l' he]
            rfl

/-- On whitespace-free input, the recorded lexemes concatenate back to the
input (fueled form). -/
theorem tokenizeLexF_flatten (fuel : Nat) :
    ∀ (input : List Char) (l : List (Token × List Char)),
    input.length ≤ fuel → (∀ c ∈ input, isspaceC c = false) →
    tokenizeLexF fuel input = .ok l → (l.map Prod.snd).flatten = input := by
  induction fuel with
  | zero =>
    intro input l hf hws h
    cases input with
    | nil => simp only [tokenizeLexF] at h; cases h; rfl
    | cons c cs => simp at hf
  | succ fuel ih =>
    intro input l hf hws h
    cases input with
    | nil => simp only [tokenizeLexF] at h; cases h; rfl
    | cons c cs =>
      simp only [tokenizeLexF] at h
      cases hn : next_token (c :: cs) with
      | mk token rest =>
        rw [hn] at h
        dsimp only at h
        by_cases ht : token.type = TokenType.UNKNOWN
        · rw [if_pos ht] at h; cases h
        · rw [if_neg ht] at h
          cases he : tokenizeLexF fuel rest with
          | error e => rw [he] at h; cases h
          | ok l' =>
            rw [he] at h
            dsimp only at h
            cases h
            obtain ⟨k, hk0, hkle, hkdrop⟩ := next_token_drop (c :: cs) (by simp) hws
            rw [hn] at hkdrop
            dsimp only at hkdrop
            have hsk : skip_whitespace (c :: cs) = c :: cs := skip_whitespace_no_ws _ hws
            have hrl : rest.length = (c :: cs).length - k := by
              rw [hkdrop]; simp
            have hlex : (c :: cs).length - rest.length = k := by
              rw [hrl]; omega
            have hwsr : ∀ c' ∈ rest, isspaceC c' = false := by
              intro c' hc'
              exact hws c' (List.drop_subset _ _ (hkdrop ▸ hc'))
            have hfr : rest.length ≤ fuel := by
              simp only [List.length_cons] at hf hrl
              omega
            simp only [List.map_cons, List.flatten_cons]
            rw [hsk, hlex, ih rest l' hfr hwsr he, hkdrop]
            exact List.take_append_drop k (c :: cs)

/-- `next_token` can never produce an `INT_KEYWORD` token: the 3-character
`"int"` check at `src/cppinterpreter.cpp:88` is only reached after the
2-character `"in"` check at line 73 has failed, yet any position matching
`"int"` also matches `"in"`. -/
theorem next_token_type_ne_int (input : List Char) :
    (next_token input).1.type ≠ TokenType.INT_KEYWORD := by
  unfold next_token
  cases hr : skip_whitespace input with
  | nil => intro h; cases h
  | cons c cs =>
    dsimp only
    repeat' split
    all_goals dsimp only
    all_goals try (intro h; cases h)
    -- the INT_KEYWORD branch: its guards are contradictory
    rename_i h1 h2 h3 h4 h5 h6
    exfalso
    apply h3
    have hin : "in".toList <+: "int".toList := ⟨['t'], rfl⟩
    exact List.isPrefixOf_iff_prefix.mpr (hin.trans (List.isPrefixOf_iff_prefix.mp h6))

/-- No token produced by the (fueled) scan has type `INT_KEYWORD`. -/
theorem tokenizeF_no_int (fuel : Nat) :
    ∀ (input : List Char) (ts : List Token),
    tokenizeF fuel input = .ok ts → ∀ t ∈ ts, t.type ≠ TokenType.INT_KEYWORD := by
  induction fuel with
  | zero =>
    intro input ts h
    cases input with
    | nil => simp only [tokenizeF] at h; cases h; simp
    | cons c cs => simp only [tokenizeF] at h; cases h; simp
  | succ fuel ih =>
    intro input ts h
    cases input with
    | nil => simp only [tokenizeF] at h; cases h; simp
    | cons c cs =>
      simp only [tokenizeF] at h
      cases hn : next_token (c :: cs) with
      | mk token rest =>
        rw [hn] at h
        dsimp only at h
        by_cases ht : token.type = TokenType.UNKNOWN
        · rw [if_pos ht] at h; cases h
        · rw [if_neg ht] at h
          cases he : tokenizeF fuel rest with
          | error e => rw [he] at h; cases h
          | ok ts' =>
            rw [he] at h
            cases h
            intro t hmem
            cases hmem with
            | head =>
              have := next_token_type_ne_int (c :: cs)
              rw [hn] at this
              exact this
            | tail _ hmem' => exact ih rest ts' he t hmem'

/-- `Parser::parse_in_statement` throws whenever the tokens after the `in`
keyword do not start with `<<` followed by an identifier. -/
theorem parse_in_statement_fails (rest : List Token)
    (h : ∀ t1 t2 r2, rest = t1 :: t2 :: r2 →
      ¬(t1.type = TokenType.LESS_THAN ∧ t2.type = TokenType.VAR_NAME)) :
    parse_in_statement rest = .error "Invalid 'in' statement" := by
  cases rest with
  | nil => rfl
  | cons t1 rest1 =>
    simp only [parse_in_statement]
    split
    · rename_i hlt
      cases rest1 with
      | nil => rfl
      | cons t2 r2 =>
        dsimp only
        split
        · rename_i hvar
          exact absurd ⟨hlt, hvar⟩ (h t1 t2 r2 rfl)
        · rfl
    · rfl

/-! ## Claims -/

/-- C1 (counterexample): the claim's second example is wrong about the code.
`tokenize "integer"` does NOT produce keyword `int` followed by identifier
`eger`: the 2-character `"in"` rule fires before the 3-character `"int"`
rule, so the result is keyword `in` followed by identifier `teger`. -/
theorem c1_counterexample :
    tokenize "integer".toList = .ok [⟨TokenType.IN, "in"⟩, ⟨TokenType.VAR_NAME, "teger"⟩]
    ∧ ([⟨TokenType.IN, "in"⟩, ⟨TokenType.VAR_NAME, "teger"⟩] : List Token)
        ≠ [⟨TokenType.INT_KEYWORD, "int"⟩, ⟨TokenType.VAR_NAME, "eger"⟩] := by
  constructor
  · rw [tokenize_evalF]; rfl
  · decide

/-- C1 (amended): an identifier beginning with a keyword is tokenized, with
no word-boundary check, as that keyword followed by the tokenization of the
remainder: `"output"` lexes as keyword `out` + identifier `"put"`, and
`"integer"` lexes as keyword `in` (the `"in"` rule shadows `"int"`) +
identifier `"teger"`. -/
theorem c1_keyword_truncation :
    tokenize "output".toList = .ok [⟨TokenType.OUT, "out"⟩, ⟨TokenType.VAR_NAME, "put"⟩]
    ∧ tokenize "integer".toList = .ok [⟨TokenType.IN, "in"⟩, ⟨TokenType.VAR_NAME, "teger"⟩] := by
  constructor
  · rw [tokenize_evalF]; rfl
  · rw [tokenize_evalF]; rfl

/-- C2 (code bug): `Interpreter::execute` is NOT total. `InStatement::execute`
only catches `std::invalid_argument`, but on the stdin line `"9999999999"`
(outside 32-bit `int` range) `std::stoi` throws `std::out_of_range`, which
escapes and aborts the whole run before the remaining statements execute. -/
theorem c2_out_of_range_aborts :
    stoi "9999999999" = .error .outOfRange
    ∧ Interpreter.execute [Statement.InStatement "a"] ["9999999999"]
        = .error "std::out_of_range"
    ∧ Interpreter.execute [Statement.InStatement "a", Statement.OutStatement ["a"]]
        ["9999999999"] = .error "std::out_of_range" :=
  ⟨rfl, rfl, rfl⟩

/-- C3 (counterexample): the pipeline on the example source yields exactly
THREE statements — `OutStatement ["hi"]`, `InStatement "a"`,
`OutStatement ["a"]` — not two as the claim states (the claim's own list
has three elements). -/
theorem c3_counterexample :
    tokenize "out >> \"hi\"; in << a; out >> a;".toList =
      .ok [⟨TokenType.OUT, "out"⟩, ⟨TokenType.GREATER_THAN, ">>"⟩,
           ⟨TokenType.STRING_LITERAL, "hi"⟩, ⟨TokenType.END_STATEMENT, ";"⟩,
           ⟨TokenType.IN, "in"⟩, ⟨TokenType.LESS_THAN, "<<"⟩,
           ⟨TokenType.VAR_NAME, "a"⟩, ⟨TokenType.END_STATEMENT, ";"⟩,
           ⟨TokenType.OUT, "out"⟩, ⟨TokenType.GREATER_THAN, ">>"⟩,
           ⟨TokenType.VAR_NAME, "a"⟩, ⟨TokenType.END_STATEMENT, ";"⟩]
    ∧ parse [⟨TokenType.OUT, "out"⟩, ⟨TokenType.GREATER_THAN, ">>"⟩,
           ⟨TokenType.STRING_LITERAL, "hi"⟩, ⟨TokenType.END_STATEMENT, ";"⟩,
           ⟨TokenType.IN, "in"⟩, ⟨TokenType.LESS_THAN, "<<"⟩,
           ⟨TokenType.VAR_NAME, "a"⟩, ⟨TokenType.END_STATEMENT, ";"⟩,
           ⟨TokenType.OUT, "out"⟩, ⟨TokenType.GREATER_THAN, ">>"⟩,
           ⟨TokenType.VAR_NAME, "a"⟩, ⟨TokenType.END_STATEMENT, ";"⟩] =
      .ok [Statement.OutStatement ["hi"], Statement.InStatement "a",
           Statement.OutStatement ["a"]]
    ∧ ([Statement.OutStatement ["hi"], Statement.InStatement "a",
        Statement.OutStatement ["a"]] : List Statement).length ≠ 2 := by
  refine ⟨?_, ?_, ?_⟩
  · rw [tokenize_evalF]; rfl
  · rw [parse_evalF]; rfl
  · decide

/-- C3 (amended): tokenizing the example source yields exactly the claimed
12 tokens, and parsing them yields exactly the three listed statements in
order. -/
theorem c3_pipeline :
    tokenize "out >> \"hi\"; in << a; out >> a;".toList =
      .ok [⟨TokenType.OUT, "out"⟩, ⟨TokenType.GREATER_THAN, ">>"⟩,
           ⟨TokenType.STRING_LITERAL, "hi"⟩, ⟨TokenType.END_STATEMENT, ";"⟩,
           ⟨TokenType.IN, "in"⟩, ⟨TokenType.LESS_THAN, "<<"⟩,
           ⟨TokenType.VAR_NAME, "a"⟩, ⟨TokenType.END_STATEMENT, ";"⟩,
           ⟨TokenType.OUT, "out"⟩, ⟨TokenType.GREATER_THAN, ">>"⟩,
           ⟨TokenType.VAR_NAME, "a"⟩, ⟨TokenType.END_STATEMENT, ";"⟩]
    ∧ parse [⟨TokenType.OUT, "out"⟩, ⟨TokenType.GREATER_THAN, ">>"⟩,
           ⟨TokenType.STRING_LITERAL, "hi"⟩, ⟨TokenType.END_STATEMENT, ";"⟩,
           ⟨TokenType.IN, "in"⟩, ⟨TokenType.LESS_THAN, "<<"⟩,
           ⟨TokenType.VAR_NAME, "a"⟩, ⟨TokenType.END_STATEMENT, ";"⟩,
           ⟨TokenType.OUT, "out"⟩, ⟨TokenType.GREATER_THAN, ">>"⟩,
           ⟨TokenType.VAR_NAME, "a"⟩, ⟨TokenType.END_STATEMENT, ";"⟩] =
      .ok [Statement.OutStatement ["hi"], Statement.InStatement "a",
           Statement.OutStatement ["a"]] := by
  constructor
  · rw [tokenize_evalF]; rfl
  · rw [parse_evalF]; rfl

/-- C4: whenever the parser's cursor stands on a keyword-`in` token that is
not followed by `<<` and then an identifier, `parse` fails with the
`"Invalid 'in' statement"` error (and in particular never returns a result
that silently skips the malformed statement). -/
theorem c4_invalid_in_fails (v : String) (rest : List Token)
    (h : ∀ t1 t2 r2, rest = t1 :: t2 :: r2 →
      ¬(t1.type = TokenType.LESS_THAN ∧ t2.type = TokenType.VAR_NAME)) :
    parse (⟨TokenType.IN, v⟩ :: rest) = .error "Invalid 'in' statement" := by
  have hfail := parse_in_statement_fails rest h
  rw [parse.eq_def]
  dsimp only
  rw [if_neg (by decide), if_pos rfl]
  split
  · rename_i s r heq
    rw [hfail] at heq
    cases heq
  · rename_i e heq
    rw [hfail] at heq
    injection heq with he
    rw [← he]

/-- C4 witness: a lone `in` token (nothing follows it) makes `parse` fail. -/
theorem c4_witness :
    parse [⟨TokenType.IN, "in"⟩] = .error "Invalid 'in' statement" :=
  c4_invalid_in_fails "in" [] (fun _ _ _ h => List.noConfusion h)

/-- C5 (counterexample): the stdin line `"12abc"` is not an integer, yet
executing an `in` statement on it emits NO diagnostic and stores `"12"`
(the value of the parsed prefix), not `"0"`: `std::stoi` succeeds on any
line with a parsable integer prefix. -/
theorem c5_counterexample :
    stoi "12abc" = .ok 12
    ∧ InStatement.execute "a" { env := [], stdin := ["12abc"], stdout := [], stderr := [] }
        = .ok { env := [("a", "12")], stdin := [], stdout := [], stderr := [] }
    ∧ (some "12" : Option String) ≠ some "0" :=
  ⟨rfl, rfl, by decide⟩

/-- C5 (amended): for every stdin line on which `std::stoi` finds no integer
at all (`std::invalid_argument`: no digits after optional whitespace and
sign), executing the `in` statement appends exactly one diagnostic line
`"Invalid input. Please enter an integer."` to stderr, stores `"0"` under
the statement's variable, consumes the line, and execution continues with
the remaining statements. -/
theorem c5_invalid_input_defaults (var_name line : String) (rest_in : List String)
    (stmts : List Statement) (st : RunState)
    (hin : st.stdin = line :: rest_in)
    (hline : stoi line = .error .invalidArgument) :
    execStmts (Statement.InStatement var_name :: stmts) st =
      execStmts stmts
        { st with env := mapAssign st.env var_name "0", stdin := rest_in,
                  stderr := st.stderr ++ ["Invalid input. Please enter an integer."] } := by
  simp only [execStmts, executeStatement, InStatement.execute, hin, getline, hline]

/-- C5 witness: with stdin line `"abc"`, variable `a` is bound to `"0"`, one
diagnostic is emitted, and the subsequent `out >> a` prints `"0"`. -/
theorem c5_witness :
    execStmts [Statement.InStatement "a", Statement.OutStatement ["a"]]
        { env := [], stdin := ["abc"], stdout := [], stderr := [] } =
      execStmts [Statement.OutStatement ["a"]]
        { env := [("a", "0")], stdin := [], stdout := [],
          stderr := ["Invalid input. Please enter an integer."] }
    ∧ Interpreter.execute [Statement.InStatement "a", Statement.OutStatement ["a"]] ["abc"] =
      .ok { env := [("a", "0")], stdin := [], stdout := ["0"],
            stderr := ["Invalid input. Please enter an integer."] } :=
  ⟨c5_invalid_input_defaults "a" "abc" [] [Statement.OutStatement ["a"]]
      { env := [], stdin := ["abc"], stdout := [], stderr := [] } rfl rfl,
   rfl⟩

/-- C6: executing an `out` statement writes one stdout line per target, in
parse order: a target that is a key of the environment resolves to the
environment's current value (never to the literal), and any other target is
written literally. -/
theorem c6_out_resolution (vars : List (String × String)) (output_targets : List String) :
    (OutStatement.execute output_targets vars).length = output_targets.length
    ∧ ∀ (i : Nat) (target : String), output_targets[i]? = some target →
        ((mapFind vars target = none →
            (OutStatement.execute output_targets vars)[i]? = some target)
         ∧ ∀ v, mapFind vars target = some v →
            (OutStatement.execute output_targets vars)[i]? = some v) := by
  constructor
  · simp [OutStatement.execute]
  · intro i target ht
    constructor
    · intro hnone
      simp [OutStatement.execute, List.getElem?_map, ht, hnone]
    · intro v hv
      simp [OutStatement.execute, List.getElem?_map, ht, hv]

/-- C6 witness: with environment `{a ↦ 1}`, target `"a"` (a defined
variable, resolved to its value) prints `"1"` and target `"x"` (undefined)
prints literally. -/
theorem c6_witness :
    (OutStatement.execute ["a", "x"] [("a", "1")]).length = 2
    ∧ (OutStatement.execute ["a", "x"] [("a", "1")])[0]? = some "1"
    ∧ (OutStatement.execute ["a", "x"] [("a", "1")])[1]? = some "x" :=
  ⟨(c6_out_resolution [("a", "1")] ["a", "x"]).1.trans rfl,
   ((c6_out_resolution [("a", "1")] ["a", "x"]).2 0 "a" rfl).2 "1" rfl,
   ((c6_out_resolution [("a", "1")] ["a", "x"]).2 1 "x" rfl).1 rfl⟩

/-- C9: executing an `OutStatement` never changes the environment, and any
statement whose execution does change the environment is an `InStatement`. -/
theorem c9_out_env_frame :
    (∀ (output_targets : List String) (st st' : RunState),
        executeStatement (Statement.OutStatement output_targets) st = .ok st' →
        st'.env = st.env)
    ∧ (∀ (s : Statement) (st st' : RunState),
        executeStatement s st = .ok st' → st'.env ≠ st.env →
        ∃ name, s = Statement.InStatement name) := by
  constructor
  · intro tgts st st' h
    simp only [executeStatement] at h
    cases h
    rfl
  · intro s st st' h hne
    cases s with
    | OutStatement tgts =>
      exfalso
      apply hne
      simp only [executeStatement] at h
      cases h
      rfl
    | InStatement name => exact ⟨name, rfl⟩

/-- C9 witness: printing the defined variable `x` leaves the environment
exactly as it was. -/
theorem c9_witness :
    (RunState.mk [("x", "1")] [] ["1"] []).env = (RunState.mk [("x", "1")] [] [] []).env :=
  c9_out_env_frame.1 ["x"] (RunState.mk [("x", "1")] [] [] [])
    (RunState.mk [("x", "1")] [] ["1"] []) rfl

/-- C10: no token produced by `tokenize` ever has type `INT_KEYWORD`: the
`"int"` rule is unreachable because every position matching `"int"` already
matched the earlier `"in"` rule. -/
theorem c10_no_int_token (input : List Char) (ts : List Token)
    (h : tokenize input = .ok ts) : ∀ t ∈ ts, t.type ≠ TokenType.INT_KEYWORD := by
  rw [tokenize_evalF] at h
  exact tokenizeF_no_int input.length input ts h

/-- C10 witness: even the source `"int"` itself lexes as keyword `in` plus
identifier `t`, and its first token is not `INT_KEYWORD`. -/
theorem c10_witness :
    (Token.mk TokenType.IN "in").type ≠ TokenType.INT_KEYWORD :=
  c10_no_int_token "int".toList [⟨TokenType.IN, "in"⟩, ⟨TokenType.VAR_NAME, "t"⟩]
    (by rw [tokenize_evalF]; rfl) ⟨TokenType.IN, "in"⟩ (List.mem_cons_self _ _)

/-- C7 (counterexample): re-lexing the concatenation of the original
lexemes does NOT in general reproduce the token sequence. For the source
`"a b"` (two identifier tokens), the lexemes are `"a"` and `"b"`; their
concatenation `"ab"` re-lexes as the single identifier `"ab"`, because the
separating whitespace was not part of any lexeme. -/
theorem c7_counterexample :
    tokenize "a b".toList =
      .ok [⟨TokenType.VAR_NAME, "a"⟩, ⟨TokenType.VAR_NAME, "b"⟩]
    ∧ tokenizeLex "a b".toList =
      .ok [(⟨TokenType.VAR_NAME, "a"⟩, ['a']), (⟨TokenType.VAR_NAME, "b"⟩, ['b'])]
    ∧ ((([(⟨TokenType.VAR_NAME, "a"⟩, ['a']),
          (⟨TokenType.VAR_NAME, "b"⟩, ['b'])] : List (Token × List Char)).map
            Prod.snd).flatten : List Char)
        = "ab".toList
    ∧ tokenize "ab".toList = .ok [⟨TokenType.VAR_NAME, "ab"⟩]
    ∧ ([⟨TokenType.VAR_NAME, "ab"⟩] : List Token)
        ≠ [⟨TokenType.VAR_NAME, "a"⟩, ⟨TokenType.VAR_NAME, "b"⟩] :=
  ⟨by rw [tokenize_evalF]; rfl, rfl, rfl, by rw [tokenize_evalF]; rfl, by decide⟩

/-- C7 (amended): for every source string containing no whitespace (and no
unrecognized characters, i.e. the lex succeeds), re-lexing the concatenation
of the tokens' original lexemes — the consumed source slices recorded by
`tokenizeLex` — reproduces exactly the same token sequence. (The lexer is a
total function, hence deterministic; the whitespace restriction is forced by
the counterexample, where dropping the separator merges adjacent tokens.) -/
theorem c7_relex_no_ws (input : List Char) (l : List (Token × List Char))
    (hws : ∀ c ∈ input, isspaceC c = false)
    (h : tokenizeLex input = .ok l) :
    tokenize ((l.map Prod.snd).flatten) = .ok (l.map Prod.fst) := by
  have hfl := tokenizeLexF_flatten input.length input l (Nat.le_refl _) hws h
  rw [hfl, tokenize_evalF]
  exact tokenizeLexF_fst input.length input l h

/-- C7 witness: for the whitespace-free source `"a;"`, the lexemes `"a"`
and `";"` concatenate back to the source and re-lex to the same tokens. -/
theorem c7_witness :
    tokenize ['a', ';'] =
      .ok [⟨TokenType.VAR_NAME, "a"⟩, ⟨TokenType.END_STATEMENT, ";"⟩] :=
  c7_relex_no_ws "a;".toList
    [(⟨TokenType.VAR_NAME, "a"⟩, ['a']), (⟨TokenType.END_STATEMENT, ";"⟩, [';'])]
    (by decide) rfl

/-- C8: `tokenize` is a total function (it is defined by well-founded
recursion on the input length, using `next_token_shrinks`; no fuel is
involved), and on an unterminated string literal it terminates by scanning
to the end of the input and producing a truncated string-literal token whose
payload is everything after the opening quote. -/
theorem c8_unterminated_quote (body : List Char) (h : ∀ c ∈ body, c ≠ '\x22') :
    tokenize ('\x22' :: body) = .ok [⟨TokenType.STRING_LITERAL, String.mk body⟩] := by
  have htw : body.takeWhile (fun d => d ≠ '\x22') = body :=
    takeWhile_eq_self_of _ _ (fun c hc => decide_eq_true (h c hc))
  have hdw : body.dropWhile (fun d => d ≠ '\x22') = [] :=
    dropWhile_eq_nil_of _ _ (fun c hc => decide_eq_true (h c hc))
  have hnt : next_token ('\x22' :: body) =
      (⟨TokenType.STRING_LITERAL, String.mk body⟩, []) := by
    have h0 : next_token ('\x22' :: body) =
        (⟨TokenType.STRING_LITERAL, String.mk (body.takeWhile (fun d => d ≠ '\x22'))⟩,
         (body.dropWhile (fun d => d ≠ '\x22')).drop 1) := rfl
    rw [h0, htw, hdw]
    rfl
  rw [tokenize_evalF]
  simp only [List.length_cons, tokenizeF]
  rw [hnt]
  rw [if_neg (by intro hx; exact TokenType.noConfusion hx)]
  rw [show tokenizeF body.length [] = Except.ok [] from by simp [tokenizeF]]

/-- C8 witness: the unterminated literal `"ab` (opening quote, no closing
quote) lexes to the single truncated string-literal token `"ab"`. -/
theorem c8_witness :
    tokenize ('\x22' :: "ab".toList) =
      .ok [⟨TokenType.STRING_LITERAL, String.mk "ab".toList⟩] :=
  c8_unterminated_quote "ab".toList (by decide)
